import Mathlib

/-!
Shallow embedding of the download-service core
(`internal/core`, `internal/app`, `internal/store`, `internal/http`,
`internal/downloader` of github.com/Extrarius/29.09.2025).

Go strings are modelled as Lean `String` (operating on `String.data`),
timestamps as `Nat`, the filesystem as a `List String` of existing paths,
and the HTTP stack as an abstract environment giving the outcome of each
successive request.  Stateful Go code becomes explicit state passing.
-/

namespace DlSvc

/-- Embeds `core.TaskStatus` — aggregated status of a task.  Go's `TaskPartial`
("PARTIAL") is rendered `mixed` because its Go name is a Lean keyword. -/
inductive TaskStatus where
  | pending
  | running
  | complete
  | failed
  | mixed
deriving DecidableEq, Repr

/-- Embeds `core.FileState` — status of one file. -/
inductive FileState where
  | pending
  | running
  | done
  | failed
deriving DecidableEq, Repr

/-- Timestamps (`time.Time`) are abstract instants. -/
abbrev Time := Nat

/-- Embeds `core.FileItem` — one URL of a task. -/
structure FileItem where
  url : String
  filename : String
  state : FileState
  error : String
  attempts : Nat
  maxAttempts : Nat
  bytesDownloaded : Int
  startedAt : Option Time
  finishedAt : Option Time
  host : String
deriving DecidableEq, Repr

/-- Embeds `core.Task` — the task business object, aggregates included. -/
structure Task where
  id : String
  label : String
  createdAt : Time
  destDir : String
  status : TaskStatus
  files : List FileItem
  total : Nat
  done : Nat
  failed : Nat
  pending : Nat
  running : Nat
  retries : Nat
deriving DecidableEq, Repr

/-- Per-character action of the `strings.NewReplacer` in
`core.sanitizeFilename`: `:`, `/`, `\` become `-`; `*`, `?`, `"`, `<`,
`>`, `|`, newline and carriage return are deleted; all else is kept. -/
def replChar (c : Char) : List Char :=
  if c = ':' ∨ c = '/' ∨ c = '\\' then ['-']
  else if c = '*' ∨ c = '?' ∨ c = '\"' ∨ c = '<' ∨ c = '>' ∨ c = '|' ∨ c = '\n' ∨ c = '\r'
    then []
  else [c]

/-- Embeds `core.sanitizeFilename` on character lists: truncate at the first
`?` (the URL query), map empty, `.` and `/` to the literal `file`, and
apply the replacer to every character. -/
def sanitizeCore (l : List Char) : List Char :=
  let l1 := l.takeWhile (fun c => c ≠ '?')
  if l1 = [] ∨ l1 = ['.'] ∨ l1 = ['/'] then "file".data
  else l1.flatMap replChar

/-- Embeds `core.sanitizeFilename`, lifted to `String`. -/
def sanitizeFilename (s : String) : String := ⟨sanitizeCore s.data⟩

/-- Status derivation `switch` at the end of `core.(*Task).RecomputeStatus`,
on the freshly counted census. -/
def deriveStatus (total done failed pending running : Nat) : TaskStatus :=
  if total > 0 ∧ done = total then TaskStatus.complete
  else if total > 0 ∧ failed = total then TaskStatus.failed
  else if running > 0 then TaskStatus.running
  else if done > 0 ∧ failed > 0 ∧ pending = 0 ∧ running = 0 then TaskStatus.mixed
  else TaskStatus.pending

/-- Embeds `core.(*Task).RecomputeStatus`: recount the per-state census and
derive the aggregate status exactly as the Go `switch` does. -/
def Task.recomputeStatus (t : Task) : Task :=
  let total := t.files.length
  let done := t.files.countP (fun f => f.state = FileState.done)
  let failed := t.files.countP (fun f => f.state = FileState.failed)
  let pending := t.files.countP (fun f => f.state = FileState.pending)
  let running := t.files.countP (fun f => f.state = FileState.running)
  let retries := (t.files.map (fun f => f.attempts)).sum
  { t with total := total, done := done, failed := failed,
           pending := pending, running := running, retries := retries,
           status := deriveStatus total done failed pending running }

/-- Environment of one HTTP attempt inside `downloader.Fetch`: the outcome
of `httpClient.Do` (`none` is a transport error, `some code` a response),
whether the body copy, the staging-file close and the final rename
succeed, and the byte count `io.Copy` reports. -/
structure AttemptEnv where
  resp : Option Nat
  copyOk : Bool
  closeOk : Bool
  renameOk : Bool
  written : Int
deriving DecidableEq, Repr

/-- Error text `fmt.Errorf("http %d", code)` produces in `Fetch`. -/
def errHTTP (code : Nat) : String := "http " ++ toString code

/-- Exhaustion message of `Fetch` (`"неизвестная ошибка при скачивании"`). -/
def fetchUnknownErr : String := "неизвестная ошибка при скачивании"

/-- Embeds the attempt loop of `downloader.Fetch`.  `fuel` is the number
of attempts left, `k` counts HTTP requests issued so far, `lastErr` is
the Go `lastErr` variable.  Per attempt: a transport error records the
error and retries; a non-2xx status records `http <code>` and retries on
5xx but returns immediately otherwise; a 2xx response retries on body
copy, close or rename failure and otherwise returns the written bytes.
Backoff waits and context cancellation are real-time effects outside the
embedding (every wait is taken to complete). -/
def fetchLoop (env : Nat → AttemptEnv) : Nat → Nat → Option String → Except String Int × Nat
  | 0, k, lastErr => (Except.error (lastErr.getD fetchUnknownErr), k)
  | fuel+1, k, _lastErr =>
    let e := env k
    match e.resp with
    | none => fetchLoop env fuel (k+1) (some "transport error")
    | some code =>
      if code < 200 ∨ 300 ≤ code then
        if 500 ≤ code ∧ code < 600 then fetchLoop env fuel (k+1) (some (errHTTP code))
        else (Except.error (errHTTP code), k+1)
      else
        if e.copyOk = false then fetchLoop env fuel (k+1) (some "copy error")
        else if e.closeOk = false then fetchLoop env fuel (k+1) (some "close error")
        else if e.renameOk = false then fetchLoop env fuel (k+1) (some "rename error")
        else (Except.ok e.written, k+1)

/-- Embeds `downloader.(*Downloader).Fetch` at the control-flow level:
run the attempt loop for `max(1, retries)` attempts starting at request
counter `k`. -/
def fetchRun (retries : Nat) (env : Nat → AttemptEnv) (k : Nat) : Except String Int × Nat :=
  fetchLoop env (Nat.max 1 retries) k none

/-- Filesystem removal, `os.Remove p` on a set of existing paths. -/
def fsRemove (fs : List String) (p : String) : List String :=
  fs.filter (fun q => q != p)

/-- Filesystem creation, `os.Create p` (creates or truncates `p`). -/
def fsCreate (fs : List String) (p : String) : List String :=
  if p ∈ fs then fs else p :: fs

/-- Effect of one `Fetch` attempt on the set of existing paths, read off
the source branch by branch: the attempt first creates `tmp`
(`dest + ".part"`); a transport error only closes the handle (the source
has no `os.Remove` in that branch); every non-2xx status, body-copy
error, close error and rename error removes `tmp`; success renames
`tmp` to `dest`. -/
def attemptFs (fs : List String) (tmp dest : String) (e : AttemptEnv) : List String :=
  let fs1 := fsCreate fs tmp
  match e.resp with
  | none => fs1
  | some code =>
    if code < 200 ∨ 300 ≤ code then fsRemove fs1 tmp
    else if e.copyOk = false then fsRemove fs1 tmp
    else if e.closeOk = false then fsRemove fs1 tmp
    else if e.renameOk = false then fsRemove fs1 tmp
    else fsCreate (fsRemove fs1 tmp) dest

/-- Replaces the element at index `i`; used for the worker's in-place
file mutation (`t.Files[job.FileIndex]`). -/
def modifyAt {α : Type} : List α → Nat → (α → α) → List α
  | [], _, _ => []
  | x :: xs, 0, g => g x :: xs
  | x :: xs, i+1, g => x :: modifyAt xs i g

/-- Applies a mutation to file `idx` of a task. -/
def Task.setFile (t : Task) (idx : Nat) (g : FileItem → FileItem) : Task :=
  { t with files := modifyAt t.files idx g }

/-- Start phase of `app.(*App).workerLoop`: under the lock, if the index
is in range and the file is PENDING, set it RUNNING with cleared error
and `started_at = now`, and recompute the aggregates; otherwise the job
is discarded.  The returned flag says whether the job proceeded. -/
def workerStartPhase (t : Task) (idx : Nat) (now : Time) : Task × Bool :=
  match t.files.get? idx with
  | none => (t, false)
  | some fi =>
    if fi.state = FileState.pending then
      ((t.setFile idx (fun f =>
          { f with state := FileState.running, error := "", startedAt := some now })).recomputeStatus,
       true)
    else (t, false)

/-- Completion phase of `workerLoop`: increment `Attempts`, then mark the
file DONE (with bytes and `finished_at`) or FAILED (with the error text),
and recompute the aggregates. -/
def workerCompletionPhase (t : Task) (idx : Nat) (res : Except String Int) (now : Time) : Task :=
  (t.setFile idx (fun f =>
    let f1 := { f with attempts := f.attempts + 1 }
    match res with
    | Except.error msg =>
      { f1 with state := FileState.failed, error := msg, finishedAt := some now }
    | Except.ok written =>
      { f1 with state := FileState.done, error := "", bytesDownloaded := written,
                finishedAt := some now })).recomputeStatus

/-- Retry decision of `workerLoop`: `err != nil && fi.Attempts < fi.MaxAttempts`,
read on the file after the completion phase. -/
def workerRetryCheck (t : Task) (idx : Nat) (err : Bool) : Bool :=
  err && (match t.files.get? idx with
          | some f => decide (f.attempts < f.maxAttempts)
          | none => false)

/-- Retry reset of `workerLoop`: back to PENDING with cleared error and
timestamps, aggregates recomputed (the job is then re-enqueued). -/
def workerRetryReset (t : Task) (idx : Nat) : Task :=
  (t.setFile idx (fun f =>
    { f with state := FileState.pending, error := "", startedAt := none,
             finishedAt := none })).recomputeStatus

/-- Result of one worker iteration on a job. -/
structure JobStep where
  task : Task
  reqCount : Nat
  requeued : Bool
deriving DecidableEq, Repr

/-- One full `workerLoop` iteration for a job `(t, idx)`: start phase,
one `Fetch` call consuming requests from `env` starting at `k`,
completion phase, then the retry decision — on retry, reset the file to
PENDING and re-enqueue. -/
def runJob (env : Nat → AttemptEnv) (retries : Nat) (t : Task) (idx : Nat) (k : Nat)
    (nowS nowF : Time) : JobStep :=
  let sp := workerStartPhase t idx nowS
  if sp.2 = false then { task := sp.1, reqCount := k, requeued := false }
  else
    let fr := fetchRun retries env k
    let err := match fr.1 with | Except.error _ => true | Except.ok _ => false
    let t2 := workerCompletionPhase sp.1 idx fr.1 nowF
    if workerRetryCheck t2 idx err then
      { task := workerRetryReset t2 idx, reqCount := fr.2, requeued := true }
    else { task := t2, reqCount := fr.2, requeued := false }

/-- Runs worker iterations on one file as long as the job is re-enqueued
(`fuel` bounds the iterations; `attempts` grows by one per iteration, so
`maxAttempts` fuel is always enough). -/
def runFile (env : Nat → AttemptEnv) (retries : Nat) (idx : Nat) :
    Nat → Task → Nat → JobStep
  | 0, t, k => { task := t, reqCount := k, requeued := false }
  | fuel+1, t, k =>
    let s := runJob env retries t idx k 0 0
    if s.requeued then runFile env retries idx fuel s.task s.reqCount else s

/-- A fresh PENDING file, as `core.NewTask` builds one. -/
def mkFile (maxAtt : Nat) : FileItem :=
  { url := "http://h/x", filename := "x", state := FileState.pending, error := "",
    attempts := 0, maxAttempts := maxAtt, bytesDownloaded := 0,
    startedAt := none, finishedAt := none, host := "h" }

/-- A one-URL task as submitted (aggregates via `RecomputeStatus`). -/
def oneFileTask (maxAtt : Nat) : Task :=
  Task.recomputeStatus
    { id := "t", label := "", createdAt := 0, destDir := "", status := TaskStatus.pending,
      files := [mkFile maxAtt], total := 0, done := 0, failed := 0, pending := 0,
      running := 0, retries := 0 }

/-- A server that answers 404 to every request. -/
def env404 : Nat → AttemptEnv :=
  fun _ => { resp := some 404, copyOk := true, closeOk := true, renameOk := true, written := 0 }

/-- A server that answers 500 to the first two requests and 200 with a
7-byte body afterwards. -/
def env500x2 : Nat → AttemptEnv :=
  fun k =>
    if k < 2 then { resp := some 500, copyOk := true, closeOk := true, renameOk := true, written := 0 }
    else { resp := some 200, copyOk := true, closeOk := true, renameOk := true, written := 7 }

/-- Post-`url.Parse` data of one validated link in `core.NewTask`
(`url.Parse` is Go standard library, outside this repository): the raw
URL, `u.Host`, and `path.Base(u.Path)`. -/
structure LinkInfo where
  url : String
  host : String
  base : String
deriving DecidableEq, Repr

/-- Fallback of `core.NewTask` for degenerate basenames: `.`, `/` and
the empty string become the literal `file`. -/
def baseOrFile (b : String) : String :=
  if b = "." ∨ b = "/" ∨ b = "" then "file" else b

/-- One `FileItem` as `core.NewTask` builds it from a parsed link. -/
def mkFileFromLink (maxAtt : Nat) (li : LinkInfo) : FileItem :=
  { url := li.url, filename := sanitizeFilename (baseOrFile li.base),
    state := FileState.pending, error := "", attempts := 0, maxAttempts := maxAtt,
    bytesDownloaded := 0, startedAt := none, finishedAt := none, host := li.host }

/-- Embeds `core.NewTask` after link validation: reject an empty list,
build PENDING files, and derive the initial aggregates via
`RecomputeStatus`.  The generated id and `time.Now()` are parameters
(`crypto/rand` and the clock are outside the embedding). -/
def newTask (id label destDir : String) (links : List LinkInfo) (maxAtt : Nat)
    (now : Time) : Option Task :=
  if links = [] then none
  else some (Task.recomputeStatus
    { id := id, label := label, createdAt := now, destDir := destDir,
      status := TaskStatus.pending, files := links.map (mkFileFromLink maxAtt),
      total := 0, done := 0, failed := 0, pending := 0, running := 0, retries := 0 })

/-- Embeds `queue.Job` — the scheduling token `(task_id, file_index, host)`. -/
structure Job where
  taskId : String
  fileIndex : Nat
  host : String
deriving DecidableEq, Repr

/-- Per-file reset of `app.(*App).recoverFromWAL`: a RUNNING file goes
back to PENDING with cleared error and timestamps; other states are kept. -/
def resetRunningFile (f : FileItem) : FileItem :=
  if f.state = FileState.running then
    { f with state := FileState.pending, error := "", startedAt := none, finishedAt := none }
  else f

/-- Per-task recovery step: reset every RUNNING file, then `RecomputeStatus`. -/
def recoverTask (t : Task) : Task :=
  Task.recomputeStatus { t with files := t.files.map resetRunningFile }

/-- Jobs `recoverFromWAL` (and `AddTask`) enqueue for a task: one per
PENDING file, carrying the file index and host. -/
def pendingJobs (t : Task) : List Job :=
  t.files.enum.filterMap (fun p =>
    if p.2.state = FileState.pending then some ⟨t.id, p.1, p.2.host⟩ else none)

/-- Embeds `app.(*App).recoverFromWAL` over the recovered snapshots: for
each task, reset RUNNING files, recompute the status, register the task
in the in-memory map, and enqueue every PENDING file to the dispatcher
intake.  This is the per-task fold step. -/
def recoverStep (acc : List (String × Task) × List Job) (t : Task) :
    List (String × Task) × List Job :=
  let t' := recoverTask t
  (acc.1 ++ [(t.id, t')], acc.2 ++ pendingJobs t')

/-- Embeds `app.(*App).recoverFromWAL`, the fold of `recoverStep` over
the recovered snapshots.  `app.New` runs this before it spawns any
worker goroutine, so in the sequential embedding the returned registry
and intake queue are the state the workers start from. -/
def recoverFromWAL (ts : List Task) : List (String × Task) × List Job :=
  ts.foldl recoverStep ([], [])

/-- Embeds `store.(*WAL).AppendTask`: append one `upsert_task` snapshot
record to the journal.  Each appended record marshals to one JSON line
that unmarshals back to the same snapshot (`encoding/json` round-trip is
the standard-library boundary), so the journal is modelled as the list
of appended snapshots in order. -/
def walAppendTask (log : List Task) (t : Task) : List Task := log ++ [t]

/-- One `tasks[rec.Task.ID] = rec.Task` map update during journal replay. -/
def walApplyRecord (m : String → Option Task) (t : Task) : String → Option Task :=
  fun i => if i = t.id then some t else m i

/-- Embeds `store.(*WAL).RecoverTasks`: scan the journal in order and
keep, per task id, the last snapshot (`tasks[rec.Task.ID] = rec.Task`). -/
def recoverTasksMap (log : List Task) : String → Option Task :=
  log.foldl walApplyRecord (fun _ => none)

/-- Digit-run value used by `strconv.Atoi`: `some` of the value when the
list is a non-empty run of decimal digits, else `none`. -/
def digitsVal (l : List Char) : Option Nat :=
  if l = [] then none
  else l.foldl (fun acc c =>
    match acc with
    | none => none
    | some n => if c.isDigit then some (n * 10 + (c.toNat - '0'.toNat)) else none)
    (some 0)

/-- Embeds `strconv.Atoi` (standard library, as the handler uses it):
an optional sign followed by at least one digit; anything else is an
error.  The 64-bit range check is not modelled (the claims evaluate it
on small values only). -/
def atoi (s : String) : Option Int :=
  match s.data with
  | '+' :: rest => (digitsVal rest).map (fun n => (n : Int))
  | '-' :: rest => (digitsVal rest).map (fun n => -(n : Int))
  | l => (digitsVal l).map (fun n => (n : Int))

/-- Embeds `httpapi.positiveInt`: an absent (empty) query value yields
the default; a value that does not parse or is negative is an error;
otherwise the parsed value. -/
def positiveInt (s : String) (dflt : Int) : Except String Int :=
  if s = "" then Except.ok dflt
  else match atoi s with
    | none => Except.error "bad int"
    | some n => if n < 0 then Except.error "bad int" else Except.ok n

/-- Effective `limit` in the GET `/tasks` handler: the handler writes
`limit, _ := positiveInt(r, "limit", 100)`, so an error leaves the
zero value `0`. -/
def effLimit (s : String) : Int :=
  match positiveInt s 100 with
  | Except.ok n => n
  | Except.error _ => 0

/-- Effective `offset` in the GET `/tasks` handler (same discarded
error, default 0). -/
def effOffset (s : String) : Int :=
  match positiveInt s 0 with
  | Except.ok n => n
  | Except.error _ => 0

/-- Embeds the GET branch of the `/tasks` handler: clamp `offset` and
`offset+limit` to the task count, slice, and answer with `writeJSON`
(which never sets an explicit status, so the response status is 200). -/
def getTasksResponse (limS offS : String) (tasks : List Task) : Nat × List Task :=
  let limit := effLimit limS
  let offset0 := effOffset offS
  let n : Int := tasks.length
  let offset := if offset0 > n then n else offset0
  let endI0 := offset + limit
  let endI := if endI0 > n then n else endI0
  (200, (tasks.drop offset.toNat).take (endI - offset).toNat)

/-- Scans backwards for `filepath.Ext` (standard library `path/filepath`
on a `/`-separated path, as `uniquePath` uses it): the suffix starting
at the final dot in the final path element, empty when there is none. -/
def goExtAux : List Char → List Char → List Char
  | [], _ => []
  | c :: rest, acc =>
    if c = '/' then [] else if c = '.' then c :: acc else goExtAux rest (c :: acc)

/-- Extension of a path (`filepath.Ext`). -/
def goExt (p : String) : String := ⟨goExtAux p.data.reverse []⟩

/-- The path minus its extension, `base[:len(base)-len(ext)]`. -/
def dropExtPart (p : String) : String :=
  ⟨p.data.take (p.data.length - (goExt p).data.length)⟩

/-- ASCII digit for one decimal digit value. -/
def digitChar (n : Nat) : Char := Char.ofNat ('0'.toNat + n)

/-- Decimal digits of `n`, most significant first, by the `n % 10` /
`n / 10` loop of `app.itoa` (the first argument is fuel covering the
digit count). -/
def natDigitsAux : Nat → Nat → List Char
  | 0, _ => []
  | fuel+1, n => if n = 0 then [] else natDigitsAux fuel (n / 10) ++ [digitChar (n % 10)]

/-- Embeds `app.itoa`: decimal rendering with a sign for negatives.
(The Go source negates `n` in place, which its own comment flags as
broken for `math.MinInt`; the unique-path counter only passes 1..9999.) -/
def itoa (n : Int) : String :=
  if n = 0 then "0"
  else ⟨(if n < 0 then ['-'] else []) ++ natDigitsAux n.natAbs n.natAbs⟩

/-- Candidate `name-i.ext` tried by `app.uniquePath`. -/
def candPath (name ext : String) (i : Nat) : String :=
  name ++ "-" ++ itoa (Int.ofNat i) ++ ext

/-- Loop of `app.uniquePath`: starting at index `i` with `fuel` tries
left, return the first candidate that does not exist, or `none` when all
tried candidates exist.  The filesystem is the list of existing paths
(`os.Stat` reporting `ErrNotExist` means the path is absent). -/
def uniquePathScan (fs : List String) (name ext : String) : Nat → Nat → Option String
  | 0, _ => none
  | fuel+1, i =>
    let p := candPath name ext i
    if p ∈ fs then uniquePathScan fs name ext fuel (i+1) else some p

/-- Embeds `app.uniquePath`: return `base` when it does not exist, else
the first free `name-i.ext` for `i = 1..9999`, else `base ++ "-dup"`. -/
def uniquePath (fs : List String) (base : String) : String :=
  if base ∈ fs then
    match uniquePathScan fs (dropExtPart base) (goExt base) 9999 1 with
    | some p => p
    | none => base ++ "-dup"
  else base

/-- The characters `sanitizeFilename` replaces or removes: `:`, `/`,
`\`, `*`, `?`, `"`, `<`, `>`, `|`, newline, carriage return. -/
def bannedChars : List Char :=
  [':', '/', '\\', '*', '?', '\"', '<', '>', '|', '\n', '\r']

/-- The coordinator operations that apply a task state transition:
task construction (`core.NewTask`), the worker start phase, the worker
completion phase, the retry reset (all in `app.workerLoop`), and
per-task recovery (`app.recoverFromWAL`). -/
inductive CoordStep where
  | construct (id label destDir : String) (links : List LinkInfo) (maxAtt : Nat) (now : Time)
  | start (t : Task) (idx : Nat) (now : Time)
  | complete (t : Task) (idx : Nat) (res : Except String Int) (now : Time)
  | retryReset (t : Task) (idx : Nat)
  | recoverOne (t : Task)

/-- Guard under which the operation actually applies a transition (the
source discards the job or rejects the input otherwise). -/
def stepOK : CoordStep → Prop
  | CoordStep.construct _ _ _ links _ _ => links ≠ []
  | CoordStep.start t idx _ => ∃ f, t.files.get? idx = some f ∧ f.state = FileState.pending
  | CoordStep.complete _ _ _ _ => True
  | CoordStep.retryReset _ _ => True
  | CoordStep.recoverOne _ => True

/-- The task produced by the operation. -/
def stepResult : CoordStep → Option Task
  | CoordStep.construct id label destDir links maxAtt now => newTask id label destDir links maxAtt now
  | CoordStep.start t idx now => some (workerStartPhase t idx now).1
  | CoordStep.complete t idx res now => some (workerCompletionPhase t idx res now)
  | CoordStep.retryReset t idx => some (workerRetryReset t idx)
  | CoordStep.recoverOne t => some (recoverTask t)

/-! ## Theorems -/

/-- C1 counterexample: a single 404-responding URL with the default
`retries = 3` (so `max_attempts = 3`).  After the first failed attempt
the worker *does* reset the file to PENDING and re-enqueue the job
(`err != nil && fi.Attempts < fi.MaxAttempts` does not inspect the
status class), and the run ends with `attempts = 3`, not `1`. -/
theorem c1_counterexample :
    (runJob env404 3 (oneFileTask 3) 0 0 0 0).requeued = true ∧
    ((runFile env404 3 0 3 (oneFileTask 3) 0).task.files[0]?.map (fun f => f.attempts)) ≠ some 1 := by
  decide

/-- C1 amended: with `retries = 3`, a 404-responding URL ends in
terminal state FAILED with `attempts = 3` and task status FAILED; the
4xx is not retried inside a single `Fetch` call (exactly one HTTP
request per call, three requests in total), but the worker loop resets
the file to PENDING and re-enqueues it after each failure while
`attempts < max_attempts`. -/
theorem c1_amended :
    ((runFile env404 3 0 3 (oneFileTask 3) 0).task.files[0]?.map
      (fun f => (f.state, f.attempts))) = some (FileState.failed, 3) ∧
    (runFile env404 3 0 3 (oneFileTask 3) 0).task.status = TaskStatus.failed ∧
    (runFile env404 3 0 3 (oneFileTask 3) 0).requeued = false ∧
    (runFile env404 3 0 3 (oneFileTask 3) 0).reqCount = 3 := by
  decide

/-- C2 counterexample: a URL answering 500, 500, then 200 with
`retries = 3` ends DONE, but with `attempts = 1`, not `3`: both 5xx
failures are retried inside the single `Fetch` call and
`fi.Attempts++` runs once per call. -/
theorem c2_counterexample :
    ((runFile env500x2 3 0 3 (oneFileTask 3) 0).task.files[0]?.map
      (fun f => (f.state, f.attempts))) ≠ some (FileState.done, 3) ∧
    ((runFile env500x2 3 0 3 (oneFileTask 3) 0).task.files[0]?.map (fun f => f.state))
      = some FileState.done := by
  decide

/-- C2 amended: for 500, 500, 200 with `retries = 3` the file ends DONE
and the task COMPLETE after exactly one worker attempt (`attempts = 1`)
and three HTTP requests; the attempts counter counts `Fetch`
invocations, not the per-request retries inside one invocation. -/
theorem c2_amended :
    ((runFile env500x2 3 0 3 (oneFileTask 3) 0).task.files[0]?.map
      (fun f => (f.state, f.attempts, f.bytesDownloaded))) = some (FileState.done, 1, 7) ∧
    (runFile env500x2 3 0 3 (oneFileTask 3) 0).task.status = TaskStatus.complete ∧
    (runFile env500x2 3 0 3 (oneFileTask 3) 0).requeued = false ∧
    (runFile env500x2 3 0 3 (oneFileTask 3) 0).reqCount = 3 := by
  decide

/-- C8: in the transport-error branch of `Fetch` the staging file is
closed but never removed — after an attempt whose `httpClient.Do`
returns no response, `dest + ".part"` is still on disk, while the 5xx
branch of the very same loop does remove it.  (This contradicts the
function's own comment that temporary files are removed on errors.) -/
theorem c8_staging_survives_transport_error :
    "f.part" ∈ attemptFs [] "f.part" "f"
      { resp := none, copyOk := true, closeOk := true, renameOk := true, written := 0 } ∧
    "f.part" ∉ attemptFs [] "f.part" "f"
      { resp := some 500, copyOk := true, closeOk := true, renameOk := true, written := 0 } := by
  decide

/-- Characters produced by the replacer are never in the banned set. -/
lemma replChar_banned {a c : Char} (h : c ∈ replChar a) : c ∉ bannedChars := by
  unfold replChar at h
  by_cases h1 : a = ':' ∨ a = '/' ∨ a = '\\'
  · rw [if_pos h1] at h
    simp only [List.mem_singleton] at h
    subst h; decide
  · rw [if_neg h1] at h
    by_cases h2 : a = '*' ∨ a = '?' ∨ a = '\"' ∨ a = '<' ∨ a = '>' ∨ a = '|' ∨ a = '\n' ∨ a = '\r'
    · rw [if_pos h2] at h; cases h
    · rw [if_neg h2] at h
      simp only [List.mem_singleton] at h
      subst h
      intro hmem
      simp only [bannedChars, List.mem_cons, List.not_mem_nil, or_false] at hmem
      tauto

/-- The replacer keeps a character that is not in the banned set. -/
lemma replChar_self {c : Char} (h : c ∉ bannedChars) : replChar c = [c] := by
  have h1 : ¬(c = ':' ∨ c = '/' ∨ c = '\\') := by
    intro hc; apply h
    simp only [bannedChars, List.mem_cons, List.not_mem_nil, or_false]; tauto
  have h2 : ¬(c = '*' ∨ c = '?' ∨ c = '\"' ∨ c = '<' ∨ c = '>' ∨ c = '|' ∨ c = '\n' ∨ c = '\r') := by
    intro hc; apply h
    simp only [bannedChars, List.mem_cons, List.not_mem_nil, or_false]; tauto
  simp [replChar, h1, h2]

/-- Output characters of the sanitizer avoid the banned set. -/
lemma sanitizeCore_not_banned {l : List Char} {c : Char} (h : c ∈ sanitizeCore l) :
    c ∉ bannedChars := by
  simp only [sanitizeCore] at h
  split at h
  · simp only [List.mem_cons, List.not_mem_nil, or_false] at h
    rcases h with h | h | h | h <;> (subst h; decide)
  · obtain ⟨a, _, hc⟩ := List.mem_flatMap.mp h
    exact replChar_banned hc

/-- The replacer is the identity on a string free of banned characters. -/
lemma flatMap_replChar_id {t : List Char} (hb : ∀ c ∈ t, c ∉ bannedChars) :
    t.flatMap replChar = t := by
  induction t with
  | nil => rfl
  | cons c t ih =>
    rw [List.flatMap_cons, replChar_self (hb c (List.mem_cons_self c t)),
        ih (fun x hx => hb x (List.mem_cons_of_mem _ hx))]
    rfl

/-- The sanitizer fixes any list free of banned characters that is not
empty, `.` or `/`. -/
lemma sanitizeCore_of_clean {t : List Char} (hb : ∀ c ∈ t, c ∉ bannedChars)
    (h1 : t ≠ []) (h2 : t ≠ ['.']) (h3 : t ≠ ['/']) : sanitizeCore t = t := by
  have hq : t.takeWhile (fun c => c ≠ '?') = t := by
    rw [List.takeWhile_eq_self_iff]
    intro x hx
    by_cases hx' : x = '?'
    · exact absurd (by rw [hx']; decide) (hb x hx)
    · simp [hx']
  simp only [sanitizeCore]
  rw [hq, if_neg (by tauto)]
  exact flatMap_replChar_id hb

/-- The sanitizer is idempotent away from the two degenerate outputs. -/
lemma sanitizeCore_idem {l : List Char} (h1 : sanitizeCore l ≠ []) (h2 : sanitizeCore l ≠ ['.']) :
    sanitizeCore (sanitizeCore l) = sanitizeCore l := by
  have hb : ∀ c ∈ sanitizeCore l, c ∉ bannedChars := fun c hc => sanitizeCore_not_banned hc
  have h3 : sanitizeCore l ≠ ['/'] := by
    intro he
    exact absurd (by decide : '/' ∈ bannedChars) (hb '/' (by rw [he]; exact List.mem_singleton_self _))
  exact sanitizeCore_of_clean hb h1 h2 h3

/-- C7 counterexample: sanitization is not idempotent as stated —
`sanitizeFilename "*"` is `""` (the `*` is deleted), but a second
application maps `""` to `"file"`. -/
theorem c7_counterexample :
    sanitizeFilename (sanitizeFilename "*") ≠ sanitizeFilename "*" := by
  decide

/-- C7 amended: sanitization is idempotent on every input whose
sanitized form is neither the empty string nor `"."` (the only outputs
on which the `empty / "." / "/"`-to-`"file"` fallback can fire again;
`"/"` is impossible since `/` is always replaced by `-`). -/
theorem c7_amended (s : String) (h1 : sanitizeFilename s ≠ "") (h2 : sanitizeFilename s ≠ ".") :
    sanitizeFilename (sanitizeFilename s) = sanitizeFilename s := by
  have h1' : sanitizeCore s.data ≠ [] := fun he => h1 (congrArg String.mk he)
  have h2' : sanitizeCore s.data ≠ ['.'] := fun he => h2 (congrArg String.mk he)
  exact congrArg String.mk (sanitizeCore_idem h1' h2')

/-- Witness for C7 amended at `s = "a.txt"`. -/
theorem c7_amended_witness :
    sanitizeFilename "a.txt" ≠ "" ∧ sanitizeFilename "a.txt" ≠ "." ∧
    sanitizeFilename (sanitizeFilename "a.txt") = sanitizeFilename "a.txt" :=
  ⟨by decide, by decide, c7_amended "a.txt" (by decide) (by decide)⟩

/-- C10: no character of `sanitizeFilename`'s output is one of `:`,
`/`, `\`, `*`, `?`, `"`, `<`, `>`, `|`, newline or carriage return; in
particular the output never contains a path separator, so joining it
under the destination directory cannot escape into another
subdirectory. -/
theorem c10_sanitize_no_banned_chars (s : String) (c : Char)
    (h : c ∈ (sanitizeFilename s).data) : c ∉ bannedChars :=
  sanitizeCore_not_banned h

/-- Witness for C10 at `s = "a:b"`, `c = 'a'`. -/
theorem c10_sanitize_no_banned_chars_witness :
    ('a' ∈ (sanitizeFilename "a:b").data) ∧ 'a' ∉ bannedChars :=
  ⟨by decide, c10_sanitize_no_banned_chars "a:b" 'a' (by decide)⟩

/-- The four file states partition any file list: the per-state counts
sum to the length. -/
lemma fileState_census (l : List FileItem) :
    l.countP (fun f => f.state = FileState.done) +
    l.countP (fun f => f.state = FileState.failed) +
    l.countP (fun f => f.state = FileState.pending) +
    l.countP (fun f => f.state = FileState.running) = l.length := by
  induction l with
  | nil => simp
  | cons f l ih =>
    cases hf : f.state <;> simp [List.countP_cons, hf] <;> omega

/-- A state count equals the length exactly when every file has that state. -/
lemma allP_count {l : List FileItem} {st : FileState} :
    (l.countP (fun f => f.state = st) = l.length) ↔ ∀ f ∈ l, f.state = st := by
  rw [List.countP_eq_length]; simp

/-- A state count is positive exactly when some file has that state. -/
lemma anyP_count {l : List FileItem} {st : FileState} :
    (0 < l.countP (fun f => f.state = st)) ↔ ∃ f ∈ l, f.state = st := by
  rw [List.countP_pos_iff]; simp

/-- Case analysis of the status `switch` under the census equation. -/
lemma deriveStatus_spec (n d f p r : Nat) (hn : 0 < n) (hsum : d + f + p + r = n) :
    (d = n → deriveStatus n d f p r = TaskStatus.complete) ∧
    (f = n → deriveStatus n d f p r = TaskStatus.failed) ∧
    (0 < r → deriveStatus n d f p r = TaskStatus.running) ∧
    (0 < d → 0 < f → p = 0 → r = 0 → deriveStatus n d f p r = TaskStatus.mixed) ∧
    (d ≠ n → f ≠ n → r = 0 → ¬(0 < d ∧ 0 < f ∧ p = 0 ∧ r = 0) →
      deriveStatus n d f p r = TaskStatus.pending) := by
  unfold deriveStatus
  refine ⟨?_, ?_, ?_, ?_, ?_⟩
  · intro h; rw [if_pos ⟨hn, h⟩]
  · intro h
    rw [if_neg (by omega : ¬(n > 0 ∧ d = n)), if_pos ⟨hn, h⟩]
  · intro hr
    rw [if_neg (by omega : ¬(n > 0 ∧ d = n)), if_neg (by omega : ¬(n > 0 ∧ f = n)), if_pos hr]
  · intro hd hf hp hr
    rw [if_neg (by omega : ¬(n > 0 ∧ d = n)), if_neg (by omega : ¬(n > 0 ∧ f = n)),
        if_neg (by omega : ¬r > 0), if_pos ⟨hd, hf, hp, hr⟩]
  · intro hd hf hr hmix
    rw [if_neg (by omega : ¬(n > 0 ∧ d = n)), if_neg (by omega : ¬(n > 0 ∧ f = n)),
        if_neg (by omega : ¬r > 0), if_neg hmix]

/-- `RecomputeStatus` leaves the file list unchanged. -/
lemma recompute_files (t : Task) : (Task.recomputeStatus t).files = t.files := rfl

/-- `RecomputeStatus` sets `total` to the file count. -/
lemma recompute_total (t : Task) : (Task.recomputeStatus t).total = t.files.length := rfl

/-- `RecomputeStatus` sets `done` to the DONE census. -/
lemma recompute_done (t : Task) :
    (Task.recomputeStatus t).done = t.files.countP (fun f => f.state = FileState.done) := rfl

/-- `RecomputeStatus` sets `failed` to the FAILED census. -/
lemma recompute_failed (t : Task) :
    (Task.recomputeStatus t).failed = t.files.countP (fun f => f.state = FileState.failed) := rfl

/-- `RecomputeStatus` sets `pending` to the PENDING census. -/
lemma recompute_pending (t : Task) :
    (Task.recomputeStatus t).pending = t.files.countP (fun f => f.state = FileState.pending) := rfl

/-- `RecomputeStatus` sets `running` to the RUNNING census. -/
lemma recompute_running (t : Task) :
    (Task.recomputeStatus t).running = t.files.countP (fun f => f.state = FileState.running) := rfl

/-- `RecomputeStatus` derives the status from the fresh census. -/
lemma recompute_status_eq (t : Task) :
    (Task.recomputeStatus t).status =
      deriveStatus t.files.length
        (t.files.countP (fun f => f.state = FileState.done))
        (t.files.countP (fun f => f.state = FileState.failed))
        (t.files.countP (fun f => f.state = FileState.pending))
        (t.files.countP (fun f => f.state = FileState.running)) := rfl

/-- After `RecomputeStatus` the aggregates equal the per-file census. -/
lemma recompute_census (u : Task) :
    (Task.recomputeStatus u).total = (Task.recomputeStatus u).files.length ∧
    (Task.recomputeStatus u).done + (Task.recomputeStatus u).failed +
      (Task.recomputeStatus u).pending + (Task.recomputeStatus u).running =
      (Task.recomputeStatus u).total :=
  ⟨rfl, fileState_census u.files⟩

/-- After `RecomputeStatus` of a task with at least one file, the status
follows the derivation rule of the spec. -/
lemma recompute_status_rule (u : Task) (hne : u.files ≠ []) :
    ((∀ f ∈ (Task.recomputeStatus u).files, f.state = FileState.done) →
      (Task.recomputeStatus u).status = TaskStatus.complete) ∧
    ((∀ f ∈ (Task.recomputeStatus u).files, f.state = FileState.failed) →
      (Task.recomputeStatus u).status = TaskStatus.failed) ∧
    ((∃ f ∈ (Task.recomputeStatus u).files, f.state = FileState.running) →
      (Task.recomputeStatus u).status = TaskStatus.running) ∧
    (0 < (Task.recomputeStatus u).done → 0 < (Task.recomputeStatus u).failed →
      (Task.recomputeStatus u).pending = 0 → (Task.recomputeStatus u).running = 0 →
      (Task.recomputeStatus u).status = TaskStatus.mixed) ∧
    (¬(∀ f ∈ (Task.recomputeStatus u).files, f.state = FileState.done) →
      ¬(∀ f ∈ (Task.recomputeStatus u).files, f.state = FileState.failed) →
      ¬(∃ f ∈ (Task.recomputeStatus u).files, f.state = FileState.running) →
      ¬(0 < (Task.recomputeStatus u).done ∧ 0 < (Task.recomputeStatus u).failed ∧
        (Task.recomputeStatus u).pending = 0 ∧ (Task.recomputeStatus u).running = 0) →
      (Task.recomputeStatus u).status = TaskStatus.pending) := by
  have hn : 0 < u.files.length := List.length_pos.mpr hne
  have hsum := fileState_census u.files
  obtain ⟨s1, s2, s3, s4, s5⟩ :=
    deriveStatus_spec u.files.length
      (u.files.countP (fun f => f.state = FileState.done))
      (u.files.countP (fun f => f.state = FileState.failed))
      (u.files.countP (fun f => f.state = FileState.pending))
      (u.files.countP (fun f => f.state = FileState.running)) hn hsum
  simp only [recompute_files, recompute_done, recompute_failed, recompute_pending,
             recompute_running, recompute_status_eq]
  refine ⟨fun h => s1 (allP_count.mpr h), fun h => s2 (allP_count.mpr h),
          fun h => s3 (anyP_count.mpr h), s4, ?_⟩
  intro hd hf hr hmix
  exact s5 (fun he => hd (allP_count.mp he)) (fun he => hf (allP_count.mp he))
    (Nat.eq_zero_of_not_pos (fun hpos => hr (anyP_count.mp hpos))) hmix

/-- Every applied coordinator operation ends in a `RecomputeStatus` call. -/
lemma stepResult_recompute (s : CoordStep) (t' : Task) (hok : stepOK s)
    (hres : stepResult s = some t') : ∃ u, t' = Task.recomputeStatus u := by
  cases s with
  | construct id label destDir links maxAtt now =>
    simp only [stepResult, newTask] at hres
    rw [if_neg hok] at hres
    exact ⟨_, (Option.some.inj hres).symm⟩
  | start t idx now =>
    obtain ⟨f, hf, hfp⟩ := hok
    simp only [stepResult, workerStartPhase, hf, hfp, if_pos] at hres
    exact ⟨_, (Option.some.inj hres).symm⟩
  | complete t idx res now =>
    exact ⟨_, (Option.some.inj hres).symm⟩
  | retryReset t idx =>
    exact ⟨_, (Option.some.inj hres).symm⟩
  | recoverOne t =>
    exact ⟨_, (Option.some.inj hres).symm⟩

/-- C4: after every state transition applied by a coordinator operation
(task construction, worker start phase, completion phase, retry reset,
per-task recovery), a task with at least one file satisfies the
aggregate census — `total = |files|` and `done + failed + pending +
running = total` — and the derived status follows the rule: all DONE ⇒
COMPLETE; all FAILED ⇒ FAILED; any RUNNING ⇒ RUNNING; DONE>0 ∧ FAILED>0
∧ PENDING=0 ∧ RUNNING=0 ⇒ PARTIAL; otherwise PENDING. -/
theorem c4_invariants (s : CoordStep) (t' : Task) (hok : stepOK s)
    (hres : stepResult s = some t') (hne : t'.files ≠ []) :
    (t'.total = t'.files.length ∧
     t'.done + t'.failed + t'.pending + t'.running = t'.total) ∧
    ((∀ f ∈ t'.files, f.state = FileState.done) → t'.status = TaskStatus.complete) ∧
    ((∀ f ∈ t'.files, f.state = FileState.failed) → t'.status = TaskStatus.failed) ∧
    ((∃ f ∈ t'.files, f.state = FileState.running) → t'.status = TaskStatus.running) ∧
    (0 < t'.done → 0 < t'.failed → t'.pending = 0 → t'.running = 0 →
      t'.status = TaskStatus.mixed) ∧
    (¬(∀ f ∈ t'.files, f.state = FileState.done) →
     ¬(∀ f ∈ t'.files, f.state = FileState.failed) →
     ¬(∃ f ∈ t'.files, f.state = FileState.running) →
     ¬(0 < t'.done ∧ 0 < t'.failed ∧ t'.pending = 0 ∧ t'.running = 0) →
      t'.status = TaskStatus.pending) := by
  obtain ⟨u, rfl⟩ := stepResult_recompute s t' hok hres
  have hne' : u.files ≠ [] := by simpa [recompute_files] using hne
  exact ⟨recompute_census u, recompute_status_rule u hne'⟩

/-- Witness for C4 at the recovery step of a concrete one-file task. -/
theorem c4_invariants_witness :
    stepOK (CoordStep.recoverOne (oneFileTask 3)) ∧
    (recoverTask (oneFileTask 3)).total = (recoverTask (oneFileTask 3)).files.length :=
  ⟨trivial,
   (c4_invariants (CoordStep.recoverOne (oneFileTask 3)) (recoverTask (oneFileTask 3))
     trivial rfl (by decide)).1.1⟩

/-- The recovery fold appends one registry entry and the pending jobs of
each recovered task, in order. -/
lemma foldl_recoverStep (ts : List Task) (reg : List (String × Task)) (jobs : List Job) :
    ts.foldl recoverStep (reg, jobs) =
      (reg ++ ts.map (fun t => (t.id, recoverTask t)),
       jobs ++ ts.flatMap (fun t => pendingJobs (recoverTask t))) := by
  induction ts generalizing reg jobs with
  | nil => simp
  | cons t ts ih =>
    simp only [List.foldl_cons, recoverStep, List.map_cons, List.flatMap_cons]
    rw [ih]
    simp [List.append_assoc]

/-- Closed form of `recoverFromWAL`. -/
lemma recoverFromWAL_eq (ts : List Task) :
    recoverFromWAL ts =
      (ts.map (fun t => (t.id, recoverTask t)),
       ts.flatMap (fun t => pendingJobs (recoverTask t))) := by
  simpa [recoverFromWAL] using foldl_recoverStep ts [] []

/-- A PENDING file at index `i` contributes its job to `pendingJobs`. -/
lemma mem_pendingJobs {u : Task} {i : Nat} {f : FileItem} (hf : u.files[i]? = some f)
    (hp : f.state = FileState.pending) : Job.mk u.id i f.host ∈ pendingJobs u := by
  unfold pendingJobs
  rw [List.mem_filterMap]
  exact ⟨(i, f), by rw [List.mk_mem_enum_iff_getElem?]; exact hf, by simp [hp]⟩

/-- Recovery rewrites each file position through `resetRunningFile`. -/
lemma recoverTask_file_at {t : Task} {i : Nat} {f : FileItem} (hf : t.files[i]? = some f) :
    (recoverTask t).files[i]? = some (resetRunningFile f) := by
  show (Task.recomputeStatus _).files[i]? = _
  rw [recompute_files]
  simp [List.getElem?_map, hf]

/-- The per-file reset never leaves a file RUNNING. -/
lemma resetRunningFile_not_running (f : FileItem) :
    (resetRunningFile f).state ≠ FileState.running := by
  unfold resetRunningFile
  split <;> simp_all

/-- C3: for every task recovered from the journal, every RUNNING file is
reset to PENDING with cleared error and null timestamps while other
files are untouched, no file remains RUNNING, the aggregates are
recomputed to match the census, the task is registered in the in-memory
map, and a job for every PENDING file is enqueued to the dispatcher
intake — all as part of `recoverFromWAL`, which `app.New` runs before
it starts any worker. -/
theorem c3_recovery (ts : List Task) (t : Task) (ht : t ∈ ts) :
    ((t.id, recoverTask t) ∈ (recoverFromWAL ts).1) ∧
    ((recoverTask t).files.length = t.files.length) ∧
    (∀ (i : Nat) (f : FileItem), t.files[i]? = some f →
      (f.state = FileState.running →
        (recoverTask t).files[i]? =
          some { f with state := FileState.pending, error := "",
                        startedAt := none, finishedAt := none }) ∧
      (f.state ≠ FileState.running → (recoverTask t).files[i]? = some f)) ∧
    (∀ f ∈ (recoverTask t).files, f.state ≠ FileState.running) ∧
    ((recoverTask t).total = (recoverTask t).files.length ∧
     (recoverTask t).done + (recoverTask t).failed + (recoverTask t).pending +
       (recoverTask t).running = (recoverTask t).total) ∧
    (∀ (i : Nat) (f : FileItem), (recoverTask t).files[i]? = some f →
      f.state = FileState.pending → Job.mk t.id i f.host ∈ (recoverFromWAL ts).2) := by
  refine ⟨?_, ?_, ?_, ?_, ?_, ?_⟩
  · rw [recoverFromWAL_eq]
    exact List.mem_map.mpr ⟨t, ht, rfl⟩
  · show (Task.recomputeStatus _).files.length = _
    rw [recompute_files]
    exact List.length_map _ _
  · intro i f hf
    constructor
    · intro hrun
      rw [recoverTask_file_at hf]
      simp [resetRunningFile, hrun]
    · intro hother
      rw [recoverTask_file_at hf]
      simp [resetRunningFile, hother]
  · intro f hfmem
    have : f ∈ t.files.map resetRunningFile := by
      simpa [recoverTask, recompute_files] using hfmem
    obtain ⟨g, _, rfl⟩ := List.mem_map.mp this
    exact resetRunningFile_not_running g
  · exact recompute_census _
  · intro i f hf hp
    rw [recoverFromWAL_eq]
    exact List.mem_flatMap.mpr ⟨t, ht, mem_pendingJobs hf hp⟩

/-- Witness for C3 on a concrete one-task journal. -/
theorem c3_recovery_witness :
    ((oneFileTask 3).id, recoverTask (oneFileTask 3)) ∈ (recoverFromWAL [oneFileTask 3]).1 :=
  (c3_recovery [oneFileTask 3] (oneFileTask 3) (List.mem_singleton_self _)).1

/-- Appending the snapshots in order builds exactly that journal. -/
lemma foldl_walAppendTask (snaps : List Task) (l0 : List Task) :
    snaps.foldl walAppendTask l0 = l0 ++ snaps := by
  induction snaps generalizing l0 with
  | nil => simp
  | cons t ts ih => simp [walAppendTask, ih]

/-- Journal replay over any accumulator: the result at an id is the
latest matching record, falling back to the accumulator. -/
lemma foldl_walApplyRecord (log : List Task) (m : String → Option Task) (i : String) :
    (log.foldl walApplyRecord m) i = (log.reverse.find? (fun t => t.id == i)).or (m i) := by
  induction log generalizing m with
  | nil => simp
  | cons t log ih =>
    simp only [List.foldl_cons, List.reverse_cons]
    rw [ih, List.find?_append]
    have hstep : walApplyRecord m t i = (List.find? (fun u => u.id == i) [t]).or (m i) := by
      simp only [walApplyRecord, List.find?_cons, List.find?_nil]
      by_cases h : i = t.id
      · subst h
        simp
      · have hb : (t.id == i) = false := beq_eq_false_iff_ne.mpr (fun he => h he.symm)
        simp [h, hb]
    rw [hstep, Option.or_assoc]

/-- Replay of a journal selects the latest record per id. -/
lemma recoverTasksMap_eq (log : List Task) (i : String) :
    recoverTasksMap log i = log.reverse.find? (fun t => t.id == i) := by
  have h := foldl_walApplyRecord log (fun _ => none) i
  simpa [recoverTasksMap] using h

/-- C5: journal round-trip.  Appending any finite sequence of snapshots
via `AppendTask` yields that sequence as the journal, and `RecoverTasks`
maps each id to exactly the snapshot appended last for it (the first
match in the reversed journal), with no entry for an id that never
appears. -/
theorem c5_journal_roundtrip (snaps : List Task) (i : String) :
    (snaps.foldl walAppendTask [] = snaps) ∧
    (recoverTasksMap (snaps.foldl walAppendTask []) i =
      snaps.reverse.find? (fun t => t.id == i)) ∧
    ((∀ t ∈ snaps, t.id ≠ i) → recoverTasksMap (snaps.foldl walAppendTask []) i = none) := by
  have hlog : snaps.foldl walAppendTask [] = snaps := by
    simpa using foldl_walAppendTask snaps []
  refine ⟨hlog, ?_, ?_⟩
  · rw [hlog, recoverTasksMap_eq]
  · intro hnone
    rw [hlog, recoverTasksMap_eq, List.find?_eq_none]
    intro t htmem
    have : t ∈ snaps := List.mem_reverse.mp htmem
    simpa using hnone t this

/-- Witness for C5: two snapshots of the same id recover to the second;
an id never written recovers to nothing. -/
theorem c5_journal_roundtrip_witness :
    recoverTasksMap ([oneFileTask 1, oneFileTask 2].foldl walAppendTask []) "t"
      = some (oneFileTask 2) ∧
    recoverTasksMap ([oneFileTask 1, oneFileTask 2].foldl walAppendTask []) "zzz" = none := by
  constructor
  · rw [(c5_journal_roundtrip [oneFileTask 1, oneFileTask 2] "t").2.1]
    decide
  · exact (c5_journal_roundtrip [oneFileTask 1, oneFileTask 2] "zzz").2.2 (by decide)

/-- C6 counterexample: `GET /tasks?limit=abc` answers 200, not 400 —
the handler discards the error from `positiveInt` (`limit, _ := ...`)
and proceeds with the zero value. -/
theorem c6_counterexample :
    (getTasksResponse "abc" "" []).1 = 200 ∧ (getTasksResponse "abc" "" []).1 ≠ 400 := by
  decide

/-- C6 amended: `limit` and `offset` default to 100 and 0 when absent
and are used when they parse as non-negative integers, but a supplied
value that is not a non-negative integer is silently treated as 0 (the
parse error is discarded) and the handler always responds 200 — it
never responds 400 for bad pagination. -/
theorem c6_amended (limS offS : String) (tasks : List Task) :
    (getTasksResponse limS offS tasks).1 = 200 ∧
    (limS = "" → effLimit limS = 100) ∧
    (offS = "" → effOffset offS = 0) ∧
    (limS ≠ "" → atoi limS = none → effLimit limS = 0) ∧
    (offS ≠ "" → atoi offS = none → effOffset offS = 0) ∧
    (∀ n : Int, limS ≠ "" → atoi limS = some n → n < 0 → effLimit limS = 0) ∧
    (∀ n : Int, limS ≠ "" → atoi limS = some n → 0 ≤ n → effLimit limS = n) := by
  refine ⟨rfl, ?_, ?_, ?_, ?_, ?_, ?_⟩
  · intro h; simp [effLimit, positiveInt, h]
  · intro h; simp [effOffset, positiveInt, h]
  · intro h ha; simp [effLimit, positiveInt, h, ha]
  · intro h ha; simp [effOffset, positiveInt, h, ha]
  · intro n h ha hn; simp [effLimit, positiveInt, h, ha, hn]
  · intro n h ha hn
    have hneg : ¬n < 0 := by omega
    simp [effLimit, positiveInt, h, ha, hneg]

/-- Witness for C6 amended at `limit = "abc"`. -/
theorem c6_amended_witness :
    (getTasksResponse "abc" "" []).1 = 200 ∧ effLimit "abc" = 0 :=
  ⟨(c6_amended "abc" "" []).1,
   (c6_amended "abc" "" []).2.2.2.1 (by decide) (by decide)⟩

/-- First-free characterization of the `uniquePath` candidate loop. -/
lemma uniquePathScan_spec (fs : List String) (name ext : String) :
    ∀ fuel start,
      ((∀ k, start ≤ k → k < start + fuel → candPath name ext k ∈ fs) →
        uniquePathScan fs name ext fuel start = none) ∧
      (∀ j, start ≤ j → j < start + fuel → candPath name ext j ∉ fs →
        (∀ k, start ≤ k → k < j → candPath name ext k ∈ fs) →
        uniquePathScan fs name ext fuel start = some (candPath name ext j)) := by
  intro fuel
  induction fuel with
  | zero =>
    intro start
    exact ⟨fun _ => rfl, fun j h1 h2 _ _ => absurd h2 (by omega)⟩
  | succ fuel ih =>
    intro start
    constructor
    · intro hall
      have h0 : candPath name ext start ∈ fs := hall start (le_refl _) (by omega)
      simp only [uniquePathScan]
      rw [if_pos h0]
      exact (ih (start+1)).1 (fun k hk1 hk2 => hall k (by omega) (by omega))
    · intro j hj1 hj2 hfree hbefore
      simp only [uniquePathScan]
      by_cases h0 : candPath name ext start ∈ fs
      · rw [if_pos h0]
        have hjs : j ≠ start := fun he => hfree (he ▸ h0)
        exact (ih (start+1)).2 j (by omega) (by omega) hfree
          (fun k hk1 hk2 => hbefore k (by omega) hk2)
      · rw [if_neg h0]
        have hj : j = start := by
          by_contra hne
          exact h0 (hbefore start (le_refl _) (by omega))
        rw [hj]

/-- C9: `uniquePath` returns the candidate path `P` when no file exists
at `P`; otherwise the first free `name-i.ext` for `i = 1..9999` (with
`name`/`ext` split by `filepath.Ext`); and `P ++ "-dup"` when all 9999
suffixed candidates are taken. -/
theorem c9_uniquePath (fs : List String) (base : String) :
    (base ∉ fs → uniquePath fs base = base) ∧
    (base ∈ fs → ∀ j, 1 ≤ j → j ≤ 9999 →
      candPath (dropExtPart base) (goExt base) j ∉ fs →
      (∀ k, 1 ≤ k → k < j → candPath (dropExtPart base) (goExt base) k ∈ fs) →
      uniquePath fs base = candPath (dropExtPart base) (goExt base) j) ∧
    (base ∈ fs →
      (∀ k, 1 ≤ k → k ≤ 9999 → candPath (dropExtPart base) (goExt base) k ∈ fs) →
      uniquePath fs base = base ++ "-dup") := by
  refine ⟨?_, ?_, ?_⟩
  · intro h; simp [uniquePath, h]
  · intro h j hj1 hj2 hfree hbefore
    have hscan := (uniquePathScan_spec fs (dropExtPart base) (goExt base) 9999 1).2
      j hj1 (by omega) hfree hbefore
    simp [uniquePath, h, hscan]
  · intro h hall
    have hscan := (uniquePathScan_spec fs (dropExtPart base) (goExt base) 9999 1).1
      (fun k hk1 hk2 => hall k hk1 (by omega))
    simp [uniquePath, h, hscan]

/-- Witness for C9: with `a.txt` taken, the result is `a-1.txt`. -/
theorem c9_uniquePath_witness :
    ("a.txt" ∈ ["a.txt"]) ∧ uniquePath ["a.txt"] "a.txt" = "a-1.txt" := by
  refine ⟨by decide, ?_⟩
  have h := (c9_uniquePath ["a.txt"] "a.txt").2.1 (by decide) 1 (by decide) (by decide)
    (by decide) (fun k hk1 hk2 => absurd hk2 (by omega))
  rw [h]
  decide

end DlSvc
